import Mathlib

/-!
Verification of the copy-trading replication engine against its
specification.  The Python source is shallowly embedded: floats become
exact rationals, dictionaries with optional keys become `Option` fields,
exceptions that are caught and turned into `None` become explicit
rejection branches, and the exchange adapter (an external collaborator)
becomes a function parameter.
-/

namespace CopyTrader

/-- Python `int()` applied to a float: truncation toward zero. -/
def pyInt (q : ℚ) : ℤ := if q < 0 then -(⌊-q⌋) else ⌊q⌋

/-- The `limits` dictionary returned by `get_market_info`: the entries
`cost.min` and `amount.min`, each possibly absent (`None`). -/
structure MarketLimits where
  minCost : Option ℚ
  minAmount : Option ℚ
  deriving DecidableEq

/-- All inputs read by `calculate_follower_amount`
(src/utils/calculator.py): the market limits (whole dictionary absent
when the adapter call fails), the follower-side ticker `last` price, the
fields of the leader position that the function reads, the two account
values, and the leader's intended leverage (the `int`-typed parameter). -/
structure CalcInput where
  marketInfo : Option MarketLimits
  tickerLast : Option ℚ
  markPrice : ℚ
  contracts : ℚ
  entryPrice : ℚ
  followerTotal : ℚ
  leaderTotal : ℚ
  intendedLev : ℤ
  deriving DecidableEq

/-- The dictionary returned on success by `calculate_follower_amount`. -/
structure CalcResult where
  amount : ℚ
  leverage : ℤ
  deriving DecidableEq

def FOLLOWER_MAX_LEVERAGE : ℤ := 50

def FOLLOWER_BUDGET_USAGE_PERCENT : ℚ := 9/10

/-- calculator.py line 54: `calc_price = float(ticker.get('last') or
leader_position.mark_price)`.  Python `or` falls through on `None` and
on a zero value. -/
def calcPrice (i : CalcInput) : ℚ :=
  match i.tickerLast with
  | some v => if v = 0 then i.markPrice else v
  | none => i.markPrice

/-- calculator.py lines 62-73: the proportional amount, with the two
guarded divisions written exactly as in the source (`if leader_total >
0`, `if calc_price > 0`). -/
def proportionalAmount (i : CalcInput) : ℚ :=
  let leaderPositionNotional := i.contracts * i.entryPrice
  let leaderMarginUsed := leaderPositionNotional / (i.intendedLev : ℚ)
  let leaderMarginShare := if 0 < i.leaderTotal then leaderMarginUsed / i.leaderTotal else 0
  let proportionalFollowerMargin := i.followerTotal * leaderMarginShare
  let proportionalFollowerNotional := proportionalFollowerMargin * (i.intendedLev : ℚ)
  if 0 < calcPrice i then proportionalFollowerNotional / calcPrice i else 0

/-- calculator.py line 78: `amount_for_min_cost = (min_cost / calc_price)
* 1.05 if min_cost and calc_price > 0 else 0`. -/
def amountForMinCost (l : MarketLimits) (p : ℚ) : ℚ :=
  match l.minCost with
  | some c => if c ≠ 0 ∧ 0 < p then (c / p) * (21/20) else 0
  | none => 0

/-- calculator.py lines 81-83: the `min_amount` lift.  The `if
min_amount and ...` test keeps Python truthiness, so a limit equal to
`0` is ignored. -/
def minAmountLift (l : MarketLimits) (a0 : ℚ) : ℚ :=
  match l.minAmount with
  | some m => if m ≠ 0 ∧ a0 < m then m else a0
  | none => a0

/-- calculator.py lines 80-87: both constraint lifts applied to the
proportional amount (`min_amount`, then `min_cost`). -/
def liftedAmount (l : MarketLimits) (p : ℚ) (a0 : ℚ) : ℚ :=
  let a1 := minAmountLift l a0
  match l.minCost with
  | some c => if c ≠ 0 ∧ a1 * p < c then amountForMinCost l p else a1
  | none => a1

/-- calculator.py line 94: `follower_safety_budget =
follower_total_value * FOLLOWER_BUDGET_USAGE_PERCENT`. -/
def safetyBudget (i : CalcInput) : ℚ := i.followerTotal * FOLLOWER_BUDGET_USAGE_PERCENT

/-- calculator.py lines 102-123: the leverage-elevation step.  Returns
the effective leverage, or `none` when the trade is rejected.  The `if
follower_safety_budget > 0 ... else float('inf')` ternary is kept as an
explicit rejection branch (an infinite requirement always exceeds the
maximum). -/
def elevatedLeverage (notional budget : ℚ) (lev0 : ℤ) : Option ℤ :=
  if budget < notional / (lev0 : ℚ) then
    if ¬ 0 < budget then none
    else
      let minLeverageNeeded := notional / budget
      if (FOLLOWER_MAX_LEVERAGE : ℚ) < minLeverageNeeded then none
      else some (min FOLLOWER_MAX_LEVERAGE (pyInt minLeverageNeeded + 2))
  else some lev0

/-- `calculate_follower_amount` (src/utils/calculator.py lines 8-144).
`normalize` stands for the adapter call `normalize_amount`; `none`
models both a `None` return and a raised exception.  The explicit
`intendedLev = 0` rejection models the `ZeroDivisionError` raised at
line 63 and caught by the surrounding `except`. -/
def calculate_follower_amount (normalize : ℚ → Option ℚ) (i : CalcInput) : Option CalcResult :=
  if i.leaderTotal ≤ 1 ∨ i.followerTotal ≤ 1 then none
  else match i.marketInfo with
  | none => none
  | some lims =>
    let p := calcPrice i
    if p ≤ 0 then none
    else if i.intendedLev = 0 then none
    else
      let effectiveAmount := liftedAmount lims p (proportionalAmount i)
      let positionNotionalValue := effectiveAmount * p
      let budget := safetyBudget i
      let lev0 : ℤ := |i.intendedLev|
      match elevatedLeverage positionNotionalValue budget lev0 with
      | none => none
      | some effLev =>
        if budget < positionNotionalValue / (effLev : ℚ) then none
        else match normalize effectiveAmount with
          | none => none
          | some finalAmount =>
            if finalAmount ≤ 0 then none
            else some ⟨finalAmount, |effLev|⟩

lemma elevatedLeverage_ge_one {notional budget : ℚ} {lev0 L : ℤ} (h0 : 1 ≤ lev0)
    (h : elevatedLeverage notional budget lev0 = some L) : 1 ≤ L := by
  simp only [elevatedLeverage] at h
  split at h
  · next hcond =>
    split at h
    · exact absurd h (by simp)
    · next hbpos =>
      split at h
      · exact absurd h (by simp)
      · next hmax =>
        have hL := Option.some.inj h
        have hb : (0:ℚ) < budget := not_not.mp hbpos
        have hlev : (0:ℚ) < (lev0 : ℚ) := by exact_mod_cast h0
        have hdiv : (0:ℚ) < notional / (lev0 : ℚ) := lt_trans hb hcond
        have hnot : (0:ℚ) < notional := by
          by_contra hc
          exact absurd (div_nonpos_of_nonpos_of_nonneg (not_lt.mp hc) hlev.le) (not_le.mpr hdiv)
        have hmPos : (0:ℚ) < notional / budget := div_pos hnot hb
        have hfloor : (0:ℤ) ≤ pyInt (notional / budget) := by
          unfold pyInt
          rw [if_neg (not_lt.mpr hmPos.le)]
          exact Int.floor_nonneg.mpr hmPos.le
        rw [← hL]
        have h50 : (1:ℤ) ≤ FOLLOWER_MAX_LEVERAGE := by unfold FOLLOWER_MAX_LEVERAGE; omega
        exact le_min h50 (by omega)
  · exact le_of_le_of_eq h0 (Option.some.inj h)

/-- On the elevation path, `int()` truncation agrees with the floor
(the minimum leverage needed is positive there). -/
lemma pyInt_eq_floor_of_nonneg {q : ℚ} (h : 0 ≤ q) : pyInt q = ⌊q⌋ := by
  unfold pyInt
  rw [if_neg (not_lt.mpr h)]

/-- Inversion principle: everything that must have held on the success
path of `calculate_follower_amount`. -/
lemma calculate_follower_amount_some_inv (normalize : ℚ → Option ℚ) (i : CalcInput)
    (r : CalcResult) (h : calculate_follower_amount normalize i = some r) :
    ∃ lims effLev finalAmount,
      i.marketInfo = some lims ∧
      ¬ (i.leaderTotal ≤ 1 ∨ i.followerTotal ≤ 1) ∧
      ¬ calcPrice i ≤ 0 ∧
      i.intendedLev ≠ 0 ∧
      elevatedLeverage (liftedAmount lims (calcPrice i) (proportionalAmount i) * calcPrice i)
        (safetyBudget i) |i.intendedLev| = some effLev ∧
      ¬ safetyBudget i <
        liftedAmount lims (calcPrice i) (proportionalAmount i) * calcPrice i / (effLev : ℚ) ∧
      normalize (liftedAmount lims (calcPrice i) (proportionalAmount i)) = some finalAmount ∧
      ¬ finalAmount ≤ 0 ∧
      r = ⟨finalAmount, |effLev|⟩ := by
  simp only [calculate_follower_amount] at h
  split at h
  · exact absurd h (by simp)
  · split at h
    · exact absurd h (by simp)
    · next lims hmkt =>
      split at h
      · exact absurd h (by simp)
      · next hp =>
        split at h
        · exact absurd h (by simp)
        · next hlev0 =>
          split at h
          · exact absurd h (by simp)
          · next effLev helev =>
            split at h
            · exact absurd h (by simp)
            · next hgate =>
              split at h
              · exact absurd h (by simp)
              · next finalAmount hnormEq =>
                split at h
                · exact absurd h (by simp)
                · next hposAmt =>
                  exact ⟨lims, effLev, finalAmount, hmkt, by assumption, hp, hlev0,
                    helev, hgate, hnormEq, hposAmt, (Option.some.inj h).symm⟩

/-- Claim C1: every successful calculator output satisfies the budget
gate `amount * price / leverage ≤ 0.90 * follower_total_value`, where
the price is the computed `calc_price` and the adapter's
`normalize_amount` obeys its rounding-down contract. -/
theorem claim1_budget_safety (normalize : ℚ → Option ℚ)
    (hnorm : ∀ x y, normalize x = some y → y ≤ x)
    (i : CalcInput) (r : CalcResult)
    (h : calculate_follower_amount normalize i = some r) :
    r.amount * calcPrice i / (r.leverage : ℚ) ≤ (9/10) * i.followerTotal := by
  simp only [calculate_follower_amount] at h
  split at h
  · exact absurd h (by simp)
  · split at h
    · exact absurd h (by simp)
    · next lims hmkt =>
      split at h
      · exact absurd h (by simp)
      · next hp =>
        split at h
        · exact absurd h (by simp)
        · next hlev0 =>
          split at h
          · exact absurd h (by simp)
          · next effLev helev =>
            split at h
            · exact absurd h (by simp)
            · next hgate =>
              split at h
              · exact absurd h (by simp)
              · next finalAmount hnormEq =>
                split at h
                · exact absurd h (by simp)
                · next hposAmt =>
                  have hr := Option.some.inj h
                  have hlev1 : 1 ≤ effLev :=
                    elevatedLeverage_ge_one (Int.one_le_abs hlev0) helev
                  have hlevQ : (0:ℚ) < ((effLev : ℤ) : ℚ) := by exact_mod_cast hlev1
                  have hpQ : (0:ℚ) < calcPrice i := not_le.mp hp
                  have hle : finalAmount ≤ liftedAmount lims (calcPrice i) (proportionalAmount i) :=
                    hnorm _ _ hnormEq
                  have hmul : finalAmount * calcPrice i ≤
                      liftedAmount lims (calcPrice i) (proportionalAmount i) * calcPrice i :=
                    mul_le_mul_of_nonneg_right hle hpQ.le
                  have hgate' : liftedAmount lims (calcPrice i) (proportionalAmount i) * calcPrice i
                      / (effLev : ℚ) ≤ safetyBudget i := not_lt.mp hgate
                  have hdiv : finalAmount * calcPrice i / (effLev : ℚ) ≤
                      liftedAmount lims (calcPrice i) (proportionalAmount i) * calcPrice i / (effLev : ℚ) := by
                    gcongr
                  rw [← hr]
                  simp only [CalcResult.amount, CalcResult.leverage]
                  rw [abs_of_nonneg (by omega : (0:ℤ) ≤ effLev)]
                  have hB : safetyBudget i = (9/10) * i.followerTotal := by
                    unfold safetyBudget FOLLOWER_BUDGET_USAGE_PERCENT; ring
                  calc finalAmount * calcPrice i / (effLev : ℚ)
                      ≤ _ := hdiv
                    _ ≤ safetyBudget i := hgate'
                    _ = (9/10) * i.followerTotal := hB

lemma elevatedLeverage_le_max {notional budget : ℚ} {lev0 L : ℤ}
    (h50 : lev0 ≤ FOLLOWER_MAX_LEVERAGE)
    (h : elevatedLeverage notional budget lev0 = some L) : L ≤ FOLLOWER_MAX_LEVERAGE := by
  simp only [elevatedLeverage] at h
  split at h
  · split at h
    · exact absurd h (by simp)
    · split at h
      · exact absurd h (by simp)
      · rw [← Option.some.inj h]
        exact min_le_left _ _
  · exact le_of_eq_of_le (Option.some.inj h).symm h50

/-- Claim C2 as stated is false (see the counterexample): the bound
holds only when the leader's own intended leverage already respects it.
Amended claim: a successful result's leverage is always at least 1, and
it is at most 50 whenever the absolute leader intended leverage is at
most 50 (the no-elevation path adopts `abs(int(leader_intended_leverage))`
unchanged, the elevation path is capped at 50). -/
theorem claim2_leverage_bounds (normalize : ℚ → Option ℚ) (i : CalcInput) (r : CalcResult)
    (h : calculate_follower_amount normalize i = some r) :
    1 ≤ r.leverage ∧ (|i.intendedLev| ≤ 50 → r.leverage ≤ 50) := by
  obtain ⟨lims, effLev, finalAmount, hmkt, hguard, hp, hlev0, helev, hgate, hnormEq, hpos, hr⟩ :=
    calculate_follower_amount_some_inv normalize i r h
  have hone : 1 ≤ effLev := elevatedLeverage_ge_one (Int.one_le_abs hlev0) helev
  have habs : |effLev| = effLev := abs_of_nonneg (by omega)
  subst hr
  constructor
  · simp only [CalcResult.leverage]
    rw [habs]
    omega
  · intro hcap
    have h50 : effLev ≤ FOLLOWER_MAX_LEVERAGE :=
      elevatedLeverage_le_max hcap helev
    have hmax : FOLLOWER_MAX_LEVERAGE = 50 := rfl
    simp only [CalcResult.leverage]
    rw [habs]
    omega

/-- The leader opens at 100x with ample follower budget: the calculator
adopts leverage 100 unchanged, violating the claimed `leverage ≤ 50`. -/
def calcInputHighLev : CalcInput :=
  { marketInfo := some { minCost := none, minAmount := none }
    tickerLast := some 100
    markPrice := 100
    contracts := 1
    entryPrice := 100
    followerTotal := 10000
    leaderTotal := 10000
    intendedLev := 100 }

/-- Counterexample to claim C2 as stated: on this input the calculator
succeeds and returns leverage 100 > 50 (the no-elevation path keeps the
leader's intended leverage even above `FOLLOWER_MAX_LEVERAGE`). -/
theorem claim2_counterexample :
    calculate_follower_amount (fun x => some x) calcInputHighLev = some ⟨1, 100⟩ ∧
    ¬ ((100:ℤ) ≤ 50) := by
  constructor
  · norm_num [calcInputHighLev, calculate_follower_amount, calcPrice, proportionalAmount,
      liftedAmount, minAmountLift, amountForMinCost, safetyBudget, elevatedLeverage, pyInt,
      FOLLOWER_MAX_LEVERAGE, FOLLOWER_BUDGET_USAGE_PERCENT]
  · decide

/-- Spec scenario 1: proportional open, no lift, no elevation. -/
def calcInputProportional : CalcInput :=
  { marketInfo := some { minCost := some 5, minAmount := some (1/1000) }
    tickerLast := some 30000
    markPrice := 30000
    contracts := 1
    entryPrice := 30000
    followerTotal := 1000
    leaderTotal := 10000
    intendedLev := 5 }

theorem claim1_budget_safety_witness :
    (⟨1/10, 5⟩ : CalcResult).amount * calcPrice calcInputProportional /
      ((⟨1/10, 5⟩ : CalcResult).leverage : ℚ) ≤ (9/10) * calcInputProportional.followerTotal :=
  claim1_budget_safety (fun x => some x)
    (by intro x y hxy; injection hxy with hxy; exact hxy ▸ le_refl x)
    calcInputProportional ⟨1/10, 5⟩
    (by norm_num [calcInputProportional, calculate_follower_amount, calcPrice,
      proportionalAmount, liftedAmount, minAmountLift, amountForMinCost, safetyBudget,
      elevatedLeverage, pyInt, FOLLOWER_MAX_LEVERAGE, FOLLOWER_BUDGET_USAGE_PERCENT])

theorem claim2_leverage_bounds_witness :
    1 ≤ (⟨1/10, 5⟩ : CalcResult).leverage ∧
    (|calcInputProportional.intendedLev| ≤ 50 → (⟨1/10, 5⟩ : CalcResult).leverage ≤ 50) :=
  claim2_leverage_bounds (fun x => some x) calcInputProportional ⟨1/10, 5⟩
    (by norm_num [calcInputProportional, calculate_follower_amount, calcPrice,
      proportionalAmount, liftedAmount, minAmountLift, amountForMinCost, safetyBudget,
      elevatedLeverage, pyInt, FOLLOWER_MAX_LEVERAGE, FOLLOWER_BUDGET_USAGE_PERCENT])

lemma elevatedLeverage_none_of_big {notional budget : ℚ} {lev0 : ℤ}
    (hcond : budget < notional / (lev0 : ℚ))
    (hbig : 50 < notional / budget) :
    elevatedLeverage notional budget lev0 = none := by
  simp only [elevatedLeverage, if_pos hcond]
  split
  · rfl
  · rw [if_pos]
    show ((FOLLOWER_MAX_LEVERAGE : ℤ) : ℚ) < notional / budget
    norm_num [FOLLOWER_MAX_LEVERAGE]
    exact hbig

lemma elevatedLeverage_some_of_elev {notional budget : ℚ} {lev0 L : ℤ}
    (hcond : budget < notional / (lev0 : ℚ))
    (h : elevatedLeverage notional budget lev0 = some L) :
    0 < budget ∧ notional / budget ≤ 50 ∧ L = min 50 (pyInt (notional / budget) + 2) := by
  simp only [elevatedLeverage, if_pos hcond] at h
  split at h
  · exact absurd h (by simp)
  · next hbpos =>
    split at h
    · exact absurd h (by simp)
    · next hmax =>
      refine ⟨not_not.mp hbpos, ?_, ?_⟩
      · have := not_lt.mp hmax
        have hcast : ((FOLLOWER_MAX_LEVERAGE : ℤ) : ℚ) = 50 := by norm_num [FOLLOWER_MAX_LEVERAGE]
        rw [hcast] at this
        exact this
      · have := (Option.some.inj h).symm
        rw [this]
        rfl

/-- Claim C3: the constraint lifts and the elevation logic of
`calculate_follower_amount`.  First conjunct: a proportional amount
below a (nonzero) `amount.min` is raised to `amount.min`.  Second: a
(possibly raised) amount whose notional is below a (nonzero) `cost.min`
is replaced by `(cost.min / price) * 1.05`.  Third: when the margin the
lifted amount requires at the leader's intended leverage exceeds the
budget, the calculator rejects if the minimum leverage needed exceeds
50, and any successful result carries `min 50 (floor(L_min) + 2)`. -/
theorem claim3_lift_and_elevation (normalize : ℚ → Option ℚ) (i : CalcInput)
    (lims : MarketLimits) (hm : i.marketInfo = some lims) :
    (∀ m, lims.minAmount = some m → m ≠ 0 → proportionalAmount i < m →
      minAmountLift lims (proportionalAmount i) = m) ∧
    (∀ c, lims.minCost = some c → c ≠ 0 → 0 < calcPrice i →
      minAmountLift lims (proportionalAmount i) * calcPrice i < c →
      liftedAmount lims (calcPrice i) (proportionalAmount i) = (c / calcPrice i) * (21/20)) ∧
    (safetyBudget i <
        liftedAmount lims (calcPrice i) (proportionalAmount i) * calcPrice i /
          ((|i.intendedLev| : ℤ) : ℚ) →
      ((50:ℚ) < liftedAmount lims (calcPrice i) (proportionalAmount i) * calcPrice i /
          safetyBudget i →
        calculate_follower_amount normalize i = none) ∧
      (∀ r, calculate_follower_amount normalize i = some r →
        r.leverage = min 50
          (⌊liftedAmount lims (calcPrice i) (proportionalAmount i) * calcPrice i /
            safetyBudget i⌋ + 2))) := by
  refine ⟨?_, ?_, ?_⟩
  · intro m hma hm0 hlt
    simp only [minAmountLift, hma]
    rw [if_pos ⟨hm0, hlt⟩]
  · intro c hmc hc0 hp hlt
    simp only [liftedAmount, hmc]
    rw [if_pos ⟨hc0, hlt⟩]
    simp only [amountForMinCost, hmc]
    rw [if_pos ⟨hc0, hp⟩]
  · intro hcond
    constructor
    · intro hbig
      simp only [calculate_follower_amount, hm]
      split
      · rfl
      · split
        · rfl
        · split
          · rfl
          · rw [elevatedLeverage_none_of_big hcond hbig]
    · intro r h
      obtain ⟨lims', effLev, finalAmount, hmkt', hguard, hp, hlev0, helev, hgate, hnormEq,
        hpos, hr⟩ := calculate_follower_amount_some_inv normalize i r h
      have hlims : lims' = lims := by
        rw [hm] at hmkt'
        exact (Option.some.inj hmkt').symm
      rw [hlims] at helev hgate
      obtain ⟨hb, hle, hL⟩ := elevatedLeverage_some_of_elev hcond helev
      have hone : 1 ≤ effLev := elevatedLeverage_ge_one (Int.one_le_abs hlev0) helev
      have hlevQ : (0:ℚ) < ((|i.intendedLev| : ℤ) : ℚ) := by
        have := Int.one_le_abs hlev0
        exact_mod_cast this
      have hdivpos : (0:ℚ) <
          liftedAmount lims (calcPrice i) (proportionalAmount i) * calcPrice i /
            ((|i.intendedLev| : ℤ) : ℚ) := lt_trans hb hcond
      have hnotional : (0:ℚ) <
          liftedAmount lims (calcPrice i) (proportionalAmount i) * calcPrice i := by
        by_contra hc
        exact absurd (div_nonpos_of_nonpos_of_nonneg (not_lt.mp hc) hlevQ.le)
          (not_le.mpr hdivpos)
      have hmnn : (0:ℚ) ≤
          liftedAmount lims (calcPrice i) (proportionalAmount i) * calcPrice i /
            safetyBudget i := (div_pos hnotional hb).le
      subst hr
      simp only [CalcResult.leverage]
      rw [hL, pyInt_eq_floor_of_nonneg hmnn]
      have hfloor : (0:ℤ) ≤
          ⌊liftedAmount lims (calcPrice i) (proportionalAmount i) * calcPrice i /
            safetyBudget i⌋ := Int.floor_nonneg.mpr hmnn
      rw [abs_of_nonneg]
      have h50 : (0:ℤ) ≤ 50 := by omega
      exact le_min h50 (by omega)

/-- Spec scenario 3 variant: the `amount.min` and `cost.min` lifts both
fire, then the budget forces leverage elevation from 2x to 4x. -/
def calcInputElevated : CalcInput :=
  { marketInfo := some { minCost := some 50, minAmount := some (1/100) }
    tickerLast := some 100
    markPrice := 100
    contracts := 1
    entryPrice := 200
    followerTotal := 20
    leaderTotal := 10000
    intendedLev := 2 }

theorem claim3_lift_and_elevation_witness :
    minAmountLift { minCost := some 50, minAmount := some (1/100) }
      (proportionalAmount calcInputElevated) = 1/100 ∧
    liftedAmount { minCost := some 50, minAmount := some (1/100) }
      (calcPrice calcInputElevated) (proportionalAmount calcInputElevated)
      = (50 / calcPrice calcInputElevated) * (21/20) ∧
    calculate_follower_amount (fun x => some x) calcInputElevated = some ⟨21/40, 4⟩ ∧
    (⟨21/40, 4⟩ : CalcResult).leverage = min 50
      (⌊liftedAmount { minCost := some 50, minAmount := some (1/100) }
          (calcPrice calcInputElevated) (proportionalAmount calcInputElevated) *
          calcPrice calcInputElevated / safetyBudget calcInputElevated⌋ + 2) := by
  have hrun : calculate_follower_amount (fun x => some x) calcInputElevated = some ⟨21/40, 4⟩ := by
    norm_num [calcInputElevated, calculate_follower_amount, calcPrice, proportionalAmount,
      liftedAmount, minAmountLift, amountForMinCost, safetyBudget, elevatedLeverage, pyInt,
      FOLLOWER_MAX_LEVERAGE, FOLLOWER_BUDGET_USAGE_PERCENT]
  refine ⟨?_, ?_, hrun, ?_⟩
  · exact (claim3_lift_and_elevation (fun x => some x) calcInputElevated _ rfl).1 (1/100) rfl
      (by norm_num)
      (by norm_num [calcInputElevated, proportionalAmount, calcPrice])
  · exact (claim3_lift_and_elevation (fun x => some x) calcInputElevated _ rfl).2.1 50 rfl
      (by norm_num) (by norm_num [calcInputElevated, calcPrice])
      (by norm_num [calcInputElevated, minAmountLift, proportionalAmount, calcPrice])
  · exact ((claim3_lift_and_elevation (fun x => some x) calcInputElevated _ rfl).2.2
      (by norm_num [calcInputElevated, liftedAmount, minAmountLift, amountForMinCost,
        proportionalAmount, calcPrice, safetyBudget, FOLLOWER_BUDGET_USAGE_PERCENT])).2
      ⟨21/40, 4⟩ hrun

/-!
Symbol canonicalization (src/utils/helpers.py, `format_symbol_for_ccxt`).
Python strings are embedded as lists of characters; `str.upper()` is
modelled on the ASCII letters the function is used with.
-/

/-- The default whitespace set stripped by Python `str.strip()`: exactly
the characters for which `str.isspace()` is true, i.e. `\t`-`\r` (0x09-
0x0D), the information separators 0x1C-0x1F, the space 0x20, NEL 0x85,
NBSP 0xA0, Ogham space 0x1680, the Unicode Zs range 0x2000-0x200A, the
line and paragraph separators 0x2028/0x2029, narrow NBSP 0x202F, medium
mathematical space 0x205F, and the ideographic space 0x3000. -/
def pyIsSpace (c : Char) : Bool :=
  (0x09 ≤ c.toNat ∧ c.toNat ≤ 0x0D) ∨ (0x1C ≤ c.toNat ∧ c.toNat ≤ 0x1F) ∨
  c.toNat = 0x20 ∨ c.toNat = 0x85 ∨ c.toNat = 0xA0 ∨ c.toNat = 0x1680 ∨
  (0x2000 ≤ c.toNat ∧ c.toNat ≤ 0x200A) ∨ c.toNat = 0x2028 ∨ c.toNat = 0x2029 ∨
  c.toNat = 0x202F ∨ c.toNat = 0x205F ∨ c.toNat = 0x3000

def lowerLetters : List Char :=
  ['a','b','c','d','e','f','g','h','i','j','k','l','m',
   'n','o','p','q','r','s','t','u','v','w','x','y','z']

def upperLetters : List Char :=
  ['A','B','C','D','E','F','G','H','I','J','K','L','M',
   'N','O','P','Q','R','S','T','U','V','W','X','Y','Z']

/-- Python `str.upper()` on a single character (ASCII letters). -/
def pyUpperChar (c : Char) : Char :=
  if c = 'a' then 'A' else if c = 'b' then 'B' else if c = 'c' then 'C'
  else if c = 'd' then 'D' else if c = 'e' then 'E' else if c = 'f' then 'F'
  else if c = 'g' then 'G' else if c = 'h' then 'H' else if c = 'i' then 'I'
  else if c = 'j' then 'J' else if c = 'k' then 'K' else if c = 'l' then 'L'
  else if c = 'm' then 'M' else if c = 'n' then 'N' else if c = 'o' then 'O'
  else if c = 'p' then 'P' else if c = 'q' then 'Q' else if c = 'r' then 'R'
  else if c = 's' then 'S' else if c = 't' then 'T' else if c = 'u' then 'U'
  else if c = 'v' then 'V' else if c = 'w' then 'W' else if c = 'x' then 'X'
  else if c = 'y' then 'Y' else if c = 'z' then 'Z' else c

lemma pyUpperChar_maps_lower : ∀ c ∈ lowerLetters, pyUpperChar c ∈ upperLetters := by decide

lemma upper_not_lower : ∀ c ∈ upperLetters, c ∉ lowerLetters := by decide

lemma pyUpperChar_fix_of_not_lower {c : Char} (h : c ∉ lowerLetters) :
    pyUpperChar c = c := by
  have n1 : c ≠ 'a' := fun e => h (by subst e; decide)
  have n2 : c ≠ 'b' := fun e => h (by subst e; decide)
  have n3 : c ≠ 'c' := fun e => h (by subst e; decide)
  have n4 : c ≠ 'd' := fun e => h (by subst e; decide)
  have n5 : c ≠ 'e' := fun e => h (by subst e; decide)
  have n6 : c ≠ 'f' := fun e => h (by subst e; decide)
  have n7 : c ≠ 'g' := fun e => h (by subst e; decide)
  have n8 : c ≠ 'h' := fun e => h (by subst e; decide)
  have n9 : c ≠ 'i' := fun e => h (by subst e; decide)
  have n10 : c ≠ 'j' := fun e => h (by subst e; decide)
  have n11 : c ≠ 'k' := fun e => h (by subst e; decide)
  have n12 : c ≠ 'l' := fun e => h (by subst e; decide)
  have n13 : c ≠ 'm' := fun e => h (by subst e; decide)
  have n14 : c ≠ 'n' := fun e => h (by subst e; decide)
  have n15 : c ≠ 'o' := fun e => h (by subst e; decide)
  have n16 : c ≠ 'p' := fun e => h (by subst e; decide)
  have n17 : c ≠ 'q' := fun e => h (by subst e; decide)
  have n18 : c ≠ 'r' := fun e => h (by subst e; decide)
  have n19 : c ≠ 's' := fun e => h (by subst e; decide)
  have n20 : c ≠ 't' := fun e => h (by subst e; decide)
  have n21 : c ≠ 'u' := fun e => h (by subst e; decide)
  have n22 : c ≠ 'v' := fun e => h (by subst e; decide)
  have n23 : c ≠ 'w' := fun e => h (by subst e; decide)
  have n24 : c ≠ 'x' := fun e => h (by subst e; decide)
  have n25 : c ≠ 'y' := fun e => h (by subst e; decide)
  have n26 : c ≠ 'z' := fun e => h (by subst e; decide)
  unfold pyUpperChar
  rw [if_neg n1, if_neg n2, if_neg n3, if_neg n4, if_neg n5, if_neg n6, if_neg n7,
    if_neg n8, if_neg n9, if_neg n10, if_neg n11, if_neg n12, if_neg n13, if_neg n14,
    if_neg n15, if_neg n16, if_neg n17, if_neg n18, if_neg n19, if_neg n20, if_neg n21,
    if_neg n22, if_neg n23, if_neg n24, if_neg n25, if_neg n26]

lemma pyUpperChar_cases (c : Char) :
    pyUpperChar c = c ∨ (c ∈ lowerLetters ∧ pyUpperChar c ∈ upperLetters) := by
  by_cases hc : c ∈ lowerLetters
  · exact Or.inr ⟨hc, pyUpperChar_maps_lower c hc⟩
  · exact Or.inl (pyUpperChar_fix_of_not_lower hc)

lemma pyUpperChar_fix_of_upper {c : Char} (h : c ∈ upperLetters) :
    pyUpperChar c = c :=
  pyUpperChar_fix_of_not_lower (upper_not_lower c h)

lemma pyUpperChar_idem (c : Char) : pyUpperChar (pyUpperChar c) = pyUpperChar c := by
  rcases pyUpperChar_cases c with h | ⟨-, h⟩
  · rw [h]; exact h
  · exact pyUpperChar_fix_of_upper h

/-- A character that is neither a lower- nor an upper-case ASCII letter
is produced by `pyUpperChar` only from itself. -/
lemma pyUpperChar_eq_nonletter {c d : Char} (hdl : d ∉ lowerLetters)
    (hdu : d ∉ upperLetters) : pyUpperChar c = d ↔ c = d := by
  constructor
  · intro h
    rcases pyUpperChar_cases c with hfix | ⟨-, hup⟩
    · rw [← hfix]; exact h
    · exact absurd (h ▸ hup) hdu
  · intro h
    subst h
    exact pyUpperChar_fix_of_not_lower hdl

lemma lower_not_space : ∀ c ∈ lowerLetters, pyIsSpace c = false := by decide

lemma upper_not_space : ∀ c ∈ upperLetters, pyIsSpace c = false := by decide

lemma pyIsSpace_pyUpperChar (c : Char) : pyIsSpace (pyUpperChar c) = pyIsSpace c := by
  rcases pyUpperChar_cases c with h | ⟨hl, hu⟩
  · rw [h]
  · rw [upper_not_space _ hu, lower_not_space _ hl]

/-- Remove the longest run of characters satisfying `p` from the right
end of a list (Python `str.rstrip`). -/
def rstripBy (p : Char → Bool) (l : List Char) : List Char :=
  (l.reverse.dropWhile p).reverse

/-- Python `str.strip()` with the default whitespace set. -/
def pyStrip (l : List Char) : List Char :=
  rstripBy pyIsSpace (l.dropWhile pyIsSpace)

/-- Python `str.upper()` (ASCII model). -/
def pyUpper (l : List Char) : List Char := l.map pyUpperChar

/-- helpers.py line 46: the quote currencies tried, in source order. -/
def QUOTE_CURRENCIES : List (List Char) :=
  ["USDT".toList, "USDC".toList, "BUSD".toList, "FDUSD".toList, "TUSD".toList,
   "DAI".toList, "TRY".toList, "BTC".toList, "ETH".toList]

/-- helpers.py lines 49-56: the quote-detection loop.  A quote matches
when the upper-cased symbol ends with it and a nonempty base remains;
the base is rstripped of `-` once more.  Returns the base and the
matched quote, or `none` when the loop falls through. -/
def pyFindQuote (u : List Char) : List (List Char) → Option (List Char × List Char)
  | [] => none
  | q :: qs =>
    if q.isSuffixOf u ∧ q.length < u.length then
      some (rstripBy (fun c => c = '-') (u.take (u.length - q.length)), q)
    else pyFindQuote u qs

/-- `format_symbol_for_ccxt` (src/utils/helpers.py lines 18-67) on the
character-list embedding of Python strings.  `takeWhile (· ≠ ':')` is
`symbol.split(':')[0]`; the empty-input guard is the
`not isinstance(symbol, str) or not symbol` check. -/
def format_symbol_for_ccxt (x : List Char) : List Char :=
  if x = [] then []
  else
    let s0 := pyStrip (x.takeWhile (fun c => c ≠ ':'))
    let s := rstripBy (fun c => c = '-') s0
    if '/' ∈ s then pyUpper s
    else
      let u := pyUpper s
      match pyFindQuote u QUOTE_CURRENCIES with
      | some (b, q) => b ++ '/' :: q
      | none => if u ≠ [] then u ++ ('/' :: "USDT".toList) else []

/-!
Replication and synchronization services
(src/services/replication_service.py, src/services/sync_service.py).
Sides are the literal Python strings; symbols are character lists.
-/

/-- The fields of a `Position` object read by the services, with the two
`raw_data` entries used by the close-placeholder protocol flattened into
the structure (`raw_data.get` of a missing key is falsy, i.e. `false`
respectively `0`). -/
structure PyPosition where
  symbol : List Char
  side : String
  contracts : ℚ
  entry_price : ℚ
  mark_price : ℚ
  leverage : ℤ
  timestamp_ms : Option ℤ
  is_placeholder_for_close : Bool
  closed_amount : ℚ
  deriving DecidableEq

/-- The fields of a leader `Order` read by the replication service. -/
structure PyOrder where
  symbol : List Char
  side : String
  amount : ℚ
  filled : ℚ
  average_price : Option ℚ
  infoReduceOnly : Bool
  paramsReduceOnly : Bool
  deriving DecidableEq

/-- replication_service.py line 52: `is_reduce_only =
raw_data.get('info').get('reduceOnly', False) or
raw_data.get('params').get('reduceOnly', False)`. -/
def isReduceOnly (o : PyOrder) : Bool := o.infoReduceOnly || o.paramsReduceOnly

/-- Lookup in the dict `{p.symbol: p for p in positions}`: the last
position with the given symbol wins. -/
def posIndexLookup (positions : List PyPosition) (sym : List Char) : Option PyPosition :=
  positions.reverse.find? (fun p => p.symbol == sym)

/-- replication_service.py lines 58-68: the placeholder `Position`
synthesized when the leader position is gone and the order was
reduce-only.  `entry_price`/`mark_price` are
`leader_order.average_price or 0`. -/
def makeClosePlaceholder (sym : List Char) (o : PyOrder) : PyPosition :=
  { symbol := sym
    side := if o.side = "sell" then "long" else "short"
    contracts := 0
    entry_price := (o.average_price.getD 0)
    mark_price := (o.average_price.getD 0)
    leverage := 1
    timestamp_ms := none
    is_placeholder_for_close := true
    closed_amount := o.filled }

/-- replication_service.py lines 47-71: resolve the leader position to
replicate; `none` means the whole replication is aborted with an
error status. -/
def resolvedLeaderPos (positions : List PyPosition) (o : PyOrder) : Option PyPosition :=
  let sym := format_symbol_for_ccxt o.symbol
  match posIndexLookup positions sym with
  | some p => some p
  | none => if isReduceOnly o then some (makeClosePlaceholder sym o) else none

/-- The three outcomes of the reduce-only branch of
`_replicate_for_single_follower` before any order is placed. -/
inductive ReduceDecision where
  | skip : ReduceDecision
  | fail : ReduceDecision
  | close : ℚ → ReduceDecision
  deriving DecidableEq

/-- replication_service.py lines 136-154: the follower close amount for
a reduce-only leader order.  `skip` is the missing-follower-position
path, `fail` the zero-original-contracts path. -/
def reduceOnlyDecision (leaderPos : PyPosition) (filled : ℚ)
    (followerPos : Option PyPosition) : ReduceDecision :=
  match followerPos with
  | none => .skip
  | some fp =>
    if leaderPos.is_placeholder_for_close then .close fp.contracts
    else
      let originalLeaderContracts := leaderPos.contracts + filled
      if originalLeaderContracts < 1/1000000000 then .fail
      else .close (fp.contracts * (filled / originalLeaderContracts))

/-- A follower market order as passed to `place_order`. -/
structure PlacedOrder where
  side : String
  amount : ℚ
  reduceOnly : Bool
  deriving DecidableEq

/-- replication_service.py lines 131-194, reduce-only path: the order
placed on the follower, or `none` when the follower is skipped or the
computation fails.  `normalize` is the adapter's `normalize_amount`
applied just before `place_order` (line 186); the side is the opposite
of the LEADER snapshot side (line 134). -/
def replicateReduceOrder (normalize : ℚ → ℚ) (leaderPos : PyPosition) (o : PyOrder)
    (followerPos : Option PyPosition) : Option PlacedOrder :=
  match reduceOnlyDecision leaderPos o.filled followerPos with
  | .skip => none
  | .fail => none
  | .close amt =>
    if amt ≤ 0 then none
    else some { side := if leaderPos.side = "long" then "sell" else "buy"
                amount := normalize amt
                reduceOnly := true }

/-- sync_service.py lines 111-118: the orphan-close order issued by the
reconciliation loop for a follower position with no leader match. -/
def orphanCloseOrder (pos : PyPosition) : PlacedOrder :=
  { side := if pos.side = "long" then "sell" else "buy"
    amount := pos.contracts
    reduceOnly := true }

/-- sync_service.py lines 159-181, `_should_late_join`.  `tickerLast =
none` models the `float(None)` TypeError, `entry_price = 0` the
ZeroDivisionError; both are caught and return `False`.  `nowMs` is
`datetime.now(timezone.utc).timestamp() * 1000`.  A `timestamp_ms` of
`0` is falsy, so the age gate is skipped for it. -/
def should_late_join (tickerLast : Option ℚ) (nowMs : ℚ) (pos : PyPosition) : Bool :=
  match tickerLast with
  | none => false
  | some currentPrice =>
    if pos.entry_price = 0 then false
    else
      let priceChange := |(currentPrice - pos.entry_price) / pos.entry_price|
      if (3/400 : ℚ) < priceChange then false
      else
        match pos.timestamp_ms with
        | none => true
        | some ts =>
          if ts = 0 then true
          else if (30 * 60 : ℚ) < (nowMs - (ts : ℚ)) / 1000 then false else true

/-- Claim C4: when the leader has no current position for the order's
symbol and the order is reduce-only, `replicate_action` synthesizes the
close placeholder (contracts 0, side opposite the order side, raw flags
set), and the per-follower logic closes the follower's full contract
count. -/
theorem claim4_full_close_placeholder (positions : List PyPosition) (o : PyOrder)
    (fp : PyPosition)
    (hmiss : posIndexLookup positions (format_symbol_for_ccxt o.symbol) = none)
    (hro : isReduceOnly o = true) :
    resolvedLeaderPos positions o =
      some (makeClosePlaceholder (format_symbol_for_ccxt o.symbol) o) ∧
    (makeClosePlaceholder (format_symbol_for_ccxt o.symbol) o).contracts = 0 ∧
    (makeClosePlaceholder (format_symbol_for_ccxt o.symbol) o).side =
      (if o.side = "sell" then "long" else "short") ∧
    (makeClosePlaceholder (format_symbol_for_ccxt o.symbol) o).is_placeholder_for_close = true ∧
    (makeClosePlaceholder (format_symbol_for_ccxt o.symbol) o).closed_amount = o.filled ∧
    reduceOnlyDecision (makeClosePlaceholder (format_symbol_for_ccxt o.symbol) o) o.filled
      (some fp) = .close fp.contracts := by
  refine ⟨?_, rfl, rfl, rfl, rfl, ?_⟩
  · simp [resolvedLeaderPos, hmiss, hro]
  · simp [reduceOnlyDecision, makeClosePlaceholder]

def oC4 : PyOrder :=
  { symbol := "BTCUSDT".toList, side := "sell", amount := 2, filled := 2,
    average_price := some 30000, infoReduceOnly := false, paramsReduceOnly := true }

def fpC4 : PyPosition :=
  { symbol := "BTC/USDT".toList, side := "long", contracts := 3/20,
    entry_price := 30000, mark_price := 30000, leverage := 5,
    timestamp_ms := none, is_placeholder_for_close := false, closed_amount := 0 }

theorem claim4_full_close_placeholder_witness :
    resolvedLeaderPos [] oC4 =
      some (makeClosePlaceholder (format_symbol_for_ccxt oC4.symbol) oC4) ∧
    (makeClosePlaceholder (format_symbol_for_ccxt oC4.symbol) oC4).contracts = 0 ∧
    (makeClosePlaceholder (format_symbol_for_ccxt oC4.symbol) oC4).side =
      (if oC4.side = "sell" then "long" else "short") ∧
    (makeClosePlaceholder (format_symbol_for_ccxt oC4.symbol) oC4).is_placeholder_for_close
      = true ∧
    (makeClosePlaceholder (format_symbol_for_ccxt oC4.symbol) oC4).closed_amount = oC4.filled ∧
    reduceOnlyDecision (makeClosePlaceholder (format_symbol_for_ccxt oC4.symbol) oC4) oC4.filled
      (some fpC4) = .close fpC4.contracts :=
  claim4_full_close_placeholder [] oC4 fpC4 rfl rfl

/-- Claim C5: on a reduce-only order while the leader still holds a
(non-placeholder) position, the follower close amount is the follower
contracts scaled by `filled / (leader_contracts + filled)`; a vanishing
original size is a per-follower failure and no order is placed. -/
theorem claim5_partial_close (lp : PyPosition) (o : PyOrder) (fp : PyPosition)
    (normalize : ℚ → ℚ)
    (hnp : lp.is_placeholder_for_close = false) :
    (lp.contracts + o.filled < 1/1000000000 →
      reduceOnlyDecision lp o.filled (some fp) = .fail ∧
      replicateReduceOrder normalize lp o (some fp) = none) ∧
    (¬ lp.contracts + o.filled < 1/1000000000 →
      reduceOnlyDecision lp o.filled (some fp) =
        .close (fp.contracts * (o.filled / (lp.contracts + o.filled)))) := by
  constructor
  · intro h
    have hd : reduceOnlyDecision lp o.filled (some fp) = .fail := by
      simp only [reduceOnlyDecision]
      rw [if_neg (by simp [hnp]), if_pos h]
    refine ⟨hd, ?_⟩
    unfold replicateReduceOrder
    rw [hd]
  · intro h
    simp only [reduceOnlyDecision]
    rw [if_neg (by simp [hnp]), if_neg h]

def lpC5 : PyPosition :=
  { symbol := "BTC/USDT".toList, side := "long", contracts := 3,
    entry_price := 30000, mark_price := 30000, leverage := 5,
    timestamp_ms := none, is_placeholder_for_close := false, closed_amount := 0 }

def lpC5zero : PyPosition :=
  { symbol := "BTC/USDT".toList, side := "long", contracts := 0,
    entry_price := 30000, mark_price := 30000, leverage := 5,
    timestamp_ms := none, is_placeholder_for_close := false, closed_amount := 0 }

def oC5 : PyOrder :=
  { symbol := "BTC/USDT".toList, side := "sell", amount := 1, filled := 1,
    average_price := some 30000, infoReduceOnly := true, paramsReduceOnly := false }

def oC5zero : PyOrder :=
  { symbol := "BTC/USDT".toList, side := "sell", amount := 0, filled := 0,
    average_price := none, infoReduceOnly := true, paramsReduceOnly := false }

def fpC5 : PyPosition :=
  { symbol := "BTC/USDT".toList, side := "long", contracts := 2/5,
    entry_price := 30000, mark_price := 30000, leverage := 5,
    timestamp_ms := none, is_placeholder_for_close := false, closed_amount := 0 }

theorem claim5_partial_close_witness :
    reduceOnlyDecision lpC5 oC5.filled (some fpC5) =
      .close (fpC5.contracts * (oC5.filled / (lpC5.contracts + oC5.filled))) ∧
    reduceOnlyDecision lpC5zero oC5zero.filled (some fpC5) = .fail ∧
    replicateReduceOrder (fun a => a) lpC5zero oC5zero (some fpC5) = none := by
  refine ⟨?_, ?_, ?_⟩
  · exact (claim5_partial_close lpC5 oC5 fpC5 (fun a => a) rfl).2
      (by norm_num [lpC5, oC5])
  · exact ((claim5_partial_close lpC5zero oC5zero fpC5 (fun a => a) rfl).1
      (by norm_num [lpC5zero, oC5zero])).1
  · exact ((claim5_partial_close lpC5zero oC5zero fpC5 (fun a => a) rfl).1
      (by norm_num [lpC5zero, oC5zero])).2

lemma reduceOnlyDecision_close_le {lp fp : PyPosition} {filled amt : ℚ}
    (hfc : 0 ≤ fp.contracts) (hlc : 0 ≤ lp.contracts) (hfill : 0 ≤ filled)
    (h : reduceOnlyDecision lp filled (some fp) = .close amt) : amt ≤ fp.contracts := by
  simp only [reduceOnlyDecision] at h
  split at h
  · exact le_of_eq (ReduceDecision.close.inj h).symm
  · split at h
    · exact absurd h (by simp)
    · next horig =>
      have hpos : (0:ℚ) < lp.contracts + filled :=
        lt_of_lt_of_le (by norm_num) (not_lt.mp horig)
      have hfrac : filled / (lp.contracts + filled) ≤ 1 :=
        (div_le_one hpos).mpr (by linarith)
      rw [(ReduceDecision.close.inj h).symm]
      calc fp.contracts * (filled / (lp.contracts + filled))
          ≤ fp.contracts * 1 := mul_le_mul_of_nonneg_left hfrac hfc
        _ = fp.contracts := mul_one _

/-- Claim C6 as stated is false (see the counterexample): the placed
side is the opposite of the LEADER snapshot's side, not of the follower
position's side; the two coincide only when follower and leader are on
the same side.  Amended claim: every reduce-only replication order
carries `reduceOnly = true`, its side is the opposite of the leader
snapshot's side, and, given non-negative contract counts, a rounding-down
`normalize_amount`, and a non-negative fill, its amount never exceeds the
follower's contracts; the reconciliation orphan close carries
`reduceOnly = true`, the opposite of the follower position's side, and
exactly the follower's contracts. -/
lemma replicateReduceOrder_some_inv {normalize : ℚ → ℚ} {lp : PyPosition} {o : PyOrder}
    {fpOpt : Option PyPosition} {po : PlacedOrder}
    (h : replicateReduceOrder normalize lp o fpOpt = some po) :
    ∃ amt, reduceOnlyDecision lp o.filled fpOpt = .close amt ∧ ¬ amt ≤ 0 ∧
      po = { side := if lp.side = "long" then "sell" else "buy"
             amount := normalize amt
             reduceOnly := true } := by
  unfold replicateReduceOrder at h
  split at h
  · exact absurd h (by simp)
  · exact absurd h (by simp)
  · next amt heq =>
    split at h
    · exact absurd h (by simp)
    · next hpos => exact ⟨amt, heq, hpos, (Option.some.inj h).symm⟩

theorem claim6_reduce_only_monotone (normalize : ℚ → ℚ) (lp : PyPosition) (o : PyOrder)
    (fp : PyPosition) (po : PlacedOrder)
    (hnorm : ∀ x, normalize x ≤ x)
    (hfc : 0 ≤ fp.contracts) (hlc : 0 ≤ lp.contracts) (hfill : 0 ≤ o.filled)
    (h : replicateReduceOrder normalize lp o (some fp) = some po) :
    po.reduceOnly = true ∧
    po.side = (if lp.side = "long" then "sell" else "buy") ∧
    po.amount ≤ fp.contracts ∧
    (orphanCloseOrder fp).reduceOnly = true ∧
    (orphanCloseOrder fp).side = (if fp.side = "long" then "sell" else "buy") ∧
    (orphanCloseOrder fp).amount = fp.contracts := by
  obtain ⟨amt, hdec, hpos, hpo⟩ := replicateReduceOrder_some_inv h
  have hamt : amt ≤ fp.contracts := reduceOnlyDecision_close_le hfc hlc hfill hdec
  subst hpo
  exact ⟨rfl, rfl, le_trans (hnorm amt) hamt, rfl, rfl, rfl⟩

def lpC6 : PyPosition :=
  { symbol := "BTC/USDT".toList, side := "long", contracts := 3,
    entry_price := 100, mark_price := 100, leverage := 2,
    timestamp_ms := none, is_placeholder_for_close := false, closed_amount := 0 }

def fpC6 : PyPosition :=
  { symbol := "BTC/USDT".toList, side := "short", contracts := 8,
    entry_price := 100, mark_price := 100, leverage := 2,
    timestamp_ms := none, is_placeholder_for_close := false, closed_amount := 0 }

def oC6 : PyOrder :=
  { symbol := "BTC/USDT".toList, side := "sell", amount := 1, filled := 1,
    average_price := some 100, infoReduceOnly := true, paramsReduceOnly := false }

/-- Counterexample to claim C6 as stated: a follower who is short while
the leader is long receives a SELL reduce-only order (opposite of the
leader's side), not the BUY that "opposite of the follower position's
side" would require. -/
theorem claim6_counterexample :
    replicateReduceOrder (fun a => a) lpC6 oC6 (some fpC6) =
      some { side := "sell", amount := 2, reduceOnly := true } ∧
    fpC6.side = "short" ∧
    ("sell" : String) ≠ (if fpC6.side = "long" then "sell" else "buy") := by
  refine ⟨?_, rfl, by decide⟩
  norm_num [replicateReduceOrder, reduceOnlyDecision, lpC6, oC6, fpC6]

def lpC6w : PyPosition :=
  { symbol := "BTC/USDT".toList, side := "long", contracts := 4,
    entry_price := 100, mark_price := 100, leverage := 2,
    timestamp_ms := none, is_placeholder_for_close := false, closed_amount := 0 }

def fpC6w : PyPosition :=
  { symbol := "BTC/USDT".toList, side := "long", contracts := 2/5,
    entry_price := 100, mark_price := 100, leverage := 2,
    timestamp_ms := none, is_placeholder_for_close := false, closed_amount := 0 }

theorem claim6_reduce_only_monotone_witness :
    ({ side := "sell", amount := 2/25, reduceOnly := true } : PlacedOrder).reduceOnly = true ∧
    ({ side := "sell", amount := 2/25, reduceOnly := true } : PlacedOrder).side =
      (if lpC6w.side = "long" then "sell" else "buy") ∧
    ({ side := "sell", amount := 2/25, reduceOnly := true } : PlacedOrder).amount ≤
      fpC6w.contracts ∧
    (orphanCloseOrder fpC6w).reduceOnly = true ∧
    (orphanCloseOrder fpC6w).side = (if fpC6w.side = "long" then "sell" else "buy") ∧
    (orphanCloseOrder fpC6w).amount = fpC6w.contracts :=
  claim6_reduce_only_monotone (fun a => a) lpC6w oC6 fpC6w
    { side := "sell", amount := 2/25, reduceOnly := true }
    (fun x => le_refl x) (by norm_num [fpC6w]) (by norm_num [lpC6w]) (by norm_num [oC6])
    (by norm_num [replicateReduceOrder, reduceOnlyDecision, lpC6w, oC6, fpC6w])

/-- Claim C7 as stated is false at the exact 30-minute boundary (see the
counterexample): the code rejects only positions STRICTLY older than 30
minutes, so a position aged exactly 30 minutes is admitted.  Amended
claim: `_should_late_join` returns true only if the relative price drift
is at most 0.75% and, whenever `timestamp_ms` is set (non-zero), the age
is at most 30 minutes; a missing ticker price or a zero entry price (the
exception paths) always yields false. -/
theorem claim7_late_join_gates (tickerLast : Option ℚ) (nowMs : ℚ) (pos : PyPosition) :
    (should_late_join tickerLast nowMs pos = true →
      (∃ currentPrice, tickerLast = some currentPrice ∧ pos.entry_price ≠ 0 ∧
        |(currentPrice - pos.entry_price) / pos.entry_price| ≤ 3/400) ∧
      (∀ ts, pos.timestamp_ms = some ts → ts ≠ 0 → (nowMs - (ts:ℚ)) / 1000 ≤ 30 * 60)) ∧
    (tickerLast = none → should_late_join tickerLast nowMs pos = false) ∧
    (pos.entry_price = 0 → should_late_join tickerLast nowMs pos = false) := by
  refine ⟨?_, ?_, ?_⟩
  · intro h
    match htl : tickerLast with
    | none => simp [should_late_join] at h
    | some currentPrice =>
      simp only [should_late_join] at h
      split at h
      · exact absurd h (by simp)
      · next hentry =>
        split at h
        · exact absurd h (by simp)
        · next hdrift =>
          refine ⟨⟨currentPrice, rfl, hentry, not_lt.mp hdrift⟩, ?_⟩
          intro ts hts hts0
          rw [hts] at h
          simp only at h
          split at h
          · exact absurd ‹ts = 0› hts0
          · split at h
            · exact absurd h (by simp)
            · next hage => exact not_lt.mp hage
  · intro h
    rw [h]
    rfl
  · intro h
    cases tickerLast with
    | none => rfl
    | some currentPrice => simp [should_late_join, h]

def posC7 : PyPosition :=
  { symbol := "BTC/USDT".toList, side := "long", contracts := 1,
    entry_price := 100, mark_price := 100, leverage := 5,
    timestamp_ms := some 1000, is_placeholder_for_close := false, closed_amount := 0 }

/-- Counterexample to claim C7 as stated: at an age of exactly 30
minutes (1800 s) the gate admits, yet the position is not *younger*
than 30 minutes. -/
theorem claim7_counterexample :
    should_late_join (some 100) 1801000 posC7 = true ∧
    ¬ ((1801000 - (1000:ℚ)) / 1000 < 30 * 60) := by
  constructor
  · norm_num [should_late_join, posC7]
  · norm_num

theorem claim7_late_join_gates_witness :
    should_late_join (some 100) 500000 posC7 = true ∧
    ((500000:ℚ) - (1000:ℚ)) / 1000 ≤ 30 * 60 ∧
    should_late_join none 500000 posC7 = false := by
  have hrun : should_late_join (some 100) 500000 posC7 = true := by
    norm_num [should_late_join, posC7]
  refine ⟨hrun, ?_, (claim7_late_join_gates none 500000 posC7).2.1 rfl⟩
  have h := ((claim7_late_join_gates (some 100) 500000 posC7).1 hrun).2 1000 rfl (by decide)
  exact_mod_cast h

/-!
Command executor (src/services/command_executor.py).
-/

/-- The adapter interactions of `_handle_open_position`, in order. -/
inductive OpenStep where
  | setLeverage : OpenStep
  | adjustAmount : OpenStep
  | placeOrder : OpenStep
  deriving DecidableEq

/-- The fields of the leader `Order` object relevant to the open
handler's result shape. -/
structure MOrder where
  id : Option String
  side : String
  amount : ℚ
  status : String
  errorMessage : Option String
  deriving DecidableEq

/-- The abstract adapter as seen by `_handle_open_position`: the result
of `set_leverage`, the result of `adjust_amount_for_limits`, and the
order `place_order` would return for a given final amount. -/
structure OpenAdapter where
  setLeverageOk : Bool
  adjustResult : Option ℚ
  placed : ℚ → MOrder

/-- `_handle_open_position` (command_executor.py lines 110-151),
returning the ordered list of adapter interactions together with the
resulting order.  The two synthetic failures mirror the
`Order(id=None, ..., status='failed', error_message=msg)` constructions
at lines 132 and 139. -/
def handle_open_position (ad : OpenAdapter) (action : String) (amount : ℚ) :
    List OpenStep × MOrder :=
  if ad.setLeverageOk = false then
    ([.setLeverage],
     { id := none, side := action, amount := amount, status := "failed",
       errorMessage := some "Kaldirac ayarlanamadi. Islem iptal edildi." })
  else
    match ad.adjustResult with
    | none =>
      ([.setLeverage, .adjustAmount],
       { id := none, side := action, amount := amount, status := "failed",
         errorMessage := some "Miktar borsa limitlerine ayarlanamadi. Islem iptal edildi." })
    | some finalAmount =>
      ([.setLeverage, .adjustAmount, .placeOrder], ad.placed finalAmount)

/-- Claim C8: `set_leverage` is always the first adapter interaction; a
failed `set_leverage` yields the synthetic failed order (status
"failed", null id, error message set) without touching
`adjust_amount_for_limits` or `place_order`; a null adjustment yields
the same shape without `place_order`; and `place_order` is reached
exactly when both preconditions succeed. -/
theorem claim8_open_position_gating (ad : OpenAdapter) (action : String) (amount : ℚ) :
    (handle_open_position ad action amount).1.head? = some .setLeverage ∧
    (ad.setLeverageOk = false →
      (handle_open_position ad action amount).2.status = "failed" ∧
      (handle_open_position ad action amount).2.id = none ∧
      (handle_open_position ad action amount).2.errorMessage ≠ none ∧
      OpenStep.adjustAmount ∉ (handle_open_position ad action amount).1 ∧
      OpenStep.placeOrder ∉ (handle_open_position ad action amount).1) ∧
    (ad.setLeverageOk = true → ad.adjustResult = none →
      (handle_open_position ad action amount).2.status = "failed" ∧
      (handle_open_position ad action amount).2.id = none ∧
      (handle_open_position ad action amount).2.errorMessage ≠ none ∧
      OpenStep.placeOrder ∉ (handle_open_position ad action amount).1) ∧
    (OpenStep.placeOrder ∈ (handle_open_position ad action amount).1 ↔
      ad.setLeverageOk = true ∧ ∃ finalAmount, ad.adjustResult = some finalAmount) ∧
    (∀ finalAmount, ad.setLeverageOk = true → ad.adjustResult = some finalAmount →
      (handle_open_position ad action amount).2 = ad.placed finalAmount) := by
  rcases hlev : ad.setLeverageOk with _ | _
  · refine ⟨?_, ?_, ?_, ?_, ?_⟩ <;>
      simp [handle_open_position, hlev]
  · rcases hadj : ad.adjustResult with _ | finalAmount
    · refine ⟨?_, ?_, ?_, ?_, ?_⟩ <;>
        simp [handle_open_position, hlev, hadj]
    · refine ⟨?_, ?_, ?_, ?_, ?_⟩ <;>
        simp [handle_open_position, hlev, hadj]

def adapterC8 : OpenAdapter :=
  { setLeverageOk := false
    adjustResult := some 1
    placed := fun a =>
      { id := some "1", side := "buy", amount := a, status := "closed", errorMessage := none } }

theorem claim8_open_position_gating_witness :
    (handle_open_position adapterC8 "buy" 2).2.status = "failed" ∧
    (handle_open_position adapterC8 "buy" 2).2.id = none ∧
    (handle_open_position adapterC8 "buy" 2).2.errorMessage ≠ none ∧
    OpenStep.adjustAmount ∉ (handle_open_position adapterC8 "buy" 2).1 ∧
    OpenStep.placeOrder ∉ (handle_open_position adapterC8 "buy" 2).1 :=
  (claim8_open_position_gating adapterC8 "buy" 2).2.1 rfl

/-- The two optional close-size keys of a `scale_out` command. -/
structure ScaleOutCmd where
  amount : Option ℚ
  percentage : Option ℚ
  deriving DecidableEq

/-- command_executor.py lines 187-191: the requested close amount.  The
`if 'amount' in command / elif 'percentage' in command` chain gives
`amount` absolute precedence. -/
def scale_out_base_amount (cmd : ScaleOutCmd) (posContracts : ℚ) : ℚ :=
  match cmd.amount with
  | some a => a
  | none =>
    match cmd.percentage with
    | some pct => posContracts * (pct / 100)
    | none => 0

/-- `_handle_scale_out` (command_executor.py lines 176-221) from the
point the target position is known: `none` is a synthetic failed order
(amount not positive, adjustment failed, or adjusted amount above the
held contracts); otherwise the reduce-only order that is placed.
`adjust` stands for `adjust_amount_for_limits`. -/
def handle_scale_out (adjust : ℚ → Option ℚ) (pos : PyPosition) (cmd : ScaleOutCmd) :
    Option PlacedOrder :=
  let originalAmountToClose := scale_out_base_amount cmd pos.contracts
  if originalAmountToClose ≤ 0 then none
  else
    match adjust originalAmountToClose with
    | none => none
    | some finalAmountToClose =>
      if pos.contracts < finalAmountToClose then none
      else some { side := if pos.side = "long" then "sell" else "buy"
                  amount := finalAmountToClose
                  reduceOnly := true }

/-- Claim C10: a `scale_out` command carrying both keys is sized from
`amount` alone — the handler's behaviour is identical with and without
the `percentage` key — and `percentage * contracts / 100` is used only
when `amount` is absent. -/
theorem claim10_scale_out_amount_precedence (adjust : ℚ → Option ℚ) (pos : PyPosition)
    (a pct c : ℚ) :
    scale_out_base_amount { amount := some a, percentage := some pct } c = a ∧
    scale_out_base_amount { amount := none, percentage := some pct } c = c * (pct / 100) ∧
    handle_scale_out adjust pos { amount := some a, percentage := some pct } =
      handle_scale_out adjust pos { amount := some a, percentage := none } :=
  ⟨rfl, rfl, rfl⟩

/-!
Properties of the canonicalization helpers, leading to claim C9.
-/

lemma dropWhile_eq_self_of_head {p : Char → Bool} {l : List Char}
    (h : ∀ c, l.head? = some c → p c = false) : l.dropWhile p = l := by
  cases l with
  | nil => rfl
  | cons a t => simp [List.dropWhile_cons, h a rfl]

lemma dropWhile_eq_self_of_all {p : Char → Bool} {l : List Char}
    (h : ∀ c ∈ l, p c = false) : l.dropWhile p = l := by
  cases l with
  | nil => rfl
  | cons a t => simp [List.dropWhile_cons, h a (List.mem_cons_self a t)]

lemma mem_of_mem_dropWhile {p : Char → Bool} {l : List Char} {c : Char}
    (h : c ∈ l.dropWhile p) : c ∈ l :=
  (List.dropWhile_sublist p).subset h

lemma mem_of_mem_rstripBy {p : Char → Bool} {l : List Char} {c : Char}
    (h : c ∈ rstripBy p l) : c ∈ l := by
  unfold rstripBy at h
  rw [List.mem_reverse] at h
  exact List.mem_reverse.mp (mem_of_mem_dropWhile h)

lemma rstripBy_eq_self_of_all {p : Char → Bool} {l : List Char}
    (h : ∀ c ∈ l, p c = false) : rstripBy p l = l := by
  unfold rstripBy
  rw [dropWhile_eq_self_of_all (fun c hc => h c (List.mem_reverse.mp hc)), List.reverse_reverse]

lemma rstripBy_eq_self_of_getLast {p : Char → Bool} {l : List Char}
    (h : ∀ c, l.getLast? = some c → p c = false) : rstripBy p l = l := by
  unfold rstripBy
  rw [dropWhile_eq_self_of_head (fun c hc => h c (by rwa [List.head?_reverse] at hc)),
    List.reverse_reverse]

lemma rstripBy_no_trailing {p : Char → Bool} {l : List Char} {c : Char}
    (h : (rstripBy p l).getLast? = some c) : p c = false := by
  unfold rstripBy at h
  rw [List.getLast?_reverse] at h
  have hd := List.head?_dropWhile_not p l.reverse
  rw [h] at hd
  exact hd

lemma mem_of_mem_pyStrip {l : List Char} {c : Char} (h : c ∈ pyStrip l) : c ∈ l :=
  mem_of_mem_dropWhile (mem_of_mem_rstripBy h)

lemma pyStrip_eq_self_of_all {l : List Char} (h : ∀ c ∈ l, pyIsSpace c = false) :
    pyStrip l = l := by
  unfold pyStrip
  rw [dropWhile_eq_self_of_all h, rstripBy_eq_self_of_all h]

lemma mem_takeWhile_sat {p : Char → Bool} : ∀ {l : List Char} {c : Char},
    c ∈ l.takeWhile p → p c = true := by
  intro l
  induction l with
  | nil => intro c h; exact absurd h (by simp)
  | cons a t ih =>
    intro c h
    rw [List.takeWhile_cons] at h
    by_cases hp : p a
    · rw [if_pos hp] at h
      rcases List.mem_cons.mp h with rfl | hmem
      · exact hp
      · exact ih hmem
    · rw [if_neg hp] at h
      exact absurd h (by simp)

lemma takeWhile_eq_self_of_all {p : Char → Bool} : ∀ {l : List Char},
    (∀ c ∈ l, p c = true) → l.takeWhile p = l := by
  intro l
  induction l with
  | nil => intro _; rfl
  | cons a t ih =>
    intro h
    rw [List.takeWhile_cons, if_pos (h a (List.mem_cons_self a t)),
      ih (fun c hc => h c (List.mem_cons.mpr (Or.inr hc)))]

lemma getLast?_map (f : Char → Char) (l : List Char) :
    (l.map f).getLast? = l.getLast?.map f := by
  rw [← List.head?_reverse, ← List.map_reverse, List.head?_map, List.head?_reverse]

lemma upFix_pyUpper (l : List Char) : ∀ c ∈ pyUpper l, pyUpperChar c = c := by
  intro c hc
  obtain ⟨c', _, rfl⟩ := List.mem_map.mp hc
  exact pyUpperChar_idem c'

lemma pyUpper_eq_self_of_upFix {l : List Char} (h : ∀ c ∈ l, pyUpperChar c = c) :
    pyUpper l = l := by
  unfold pyUpper
  induction l with
  | nil => rfl
  | cons a t ih =>
    rw [List.map_cons, h a (List.mem_cons_self a t),
      ih (fun c hc => h c (List.mem_cons.mpr (Or.inr hc)))]

lemma quote_facts : ∀ q ∈ QUOTE_CURRENCIES,
    q ≠ [] ∧ (∀ c ∈ q, pyUpperChar c = c) ∧ (∀ c ∈ q, pyIsSpace c = false) ∧
    (∀ c ∈ q, c ≠ ':') ∧ '/' ∉ q ∧ (∀ c, q.getLast? = some c → c ≠ '-') := by decide

lemma pyFindQuote_some_inv : ∀ {qs : List (List Char)} {u b q : List Char},
    pyFindQuote u qs = some (b, q) →
    q ∈ qs ∧ b = rstripBy (fun c => c = '-') (u.take (u.length - q.length)) := by
  intro qs
  induction qs with
  | nil => intro u b q h; exact absurd h (by simp [pyFindQuote])
  | cons q0 rest ih =>
    intro u b q h
    rw [pyFindQuote] at h
    split at h
    · have := Prod.mk.injEq .. ▸ Option.some.inj h
      obtain ⟨hb, hq⟩ := Prod.mk.inj (Option.some.inj h)
      exact ⟨by rw [← hq]; exact List.mem_cons_self _ _, by rw [← hb, ← hq]⟩
    · obtain ⟨hmem, hb⟩ := ih h
      exact ⟨List.mem_cons.mpr (Or.inr hmem), hb⟩

lemma not_letter_colon : (':' ∉ lowerLetters) ∧ (':' ∉ upperLetters) := by decide

lemma not_letter_slash : ('/' ∉ lowerLetters) ∧ ('/' ∉ upperLetters) := by decide

lemma not_letter_dash : ('-' ∉ lowerLetters) ∧ ('-' ∉ upperLetters) := by decide

/-- Inputs already in canonical shape are fixed by
`format_symbol_for_ccxt`: nonempty, whitespace-free, colon-free, not
ending in a dash, containing a slash, and upper-case-stable. -/
lemma format_symbol_fixed {y : List Char} (hne : y ≠ [])
    (hws : ∀ c ∈ y, pyIsSpace c = false) (hcol : ∀ c ∈ y, c ≠ ':')
    (hlast : ∀ c, y.getLast? = some c → c ≠ '-')
    (hslash : '/' ∈ y) (hup : pyUpper y = y) :
    format_symbol_for_ccxt y = y := by
  have h1 : y.takeWhile (fun c => c ≠ ':') = y :=
    takeWhile_eq_self_of_all (fun c hc => decide_eq_true (hcol c hc))
  simp only [format_symbol_for_ccxt]
  rw [if_neg hne, h1, pyStrip_eq_self_of_all hws,
    rstripBy_eq_self_of_getLast (fun c hc => decide_eq_false (hlast c hc)),
    if_pos hslash]
  exact hup

lemma noWs_pyUpper {s : List Char} (h : ∀ c ∈ s, pyIsSpace c = false) :
    ∀ c ∈ pyUpper s, pyIsSpace c = false := by
  intro c hc
  obtain ⟨c', hc', rfl⟩ := List.mem_map.mp hc
  rw [pyIsSpace_pyUpperChar]
  exact h c' hc'

lemma noColon_pyUpper {s : List Char} (h : ∀ c ∈ s, c ≠ ':') :
    ∀ c ∈ pyUpper s, c ≠ ':' := by
  intro c hc he
  obtain ⟨c', hc', rfl⟩ := List.mem_map.mp hc
  exact h c' hc'
    ((pyUpperChar_eq_nonletter not_letter_colon.1 not_letter_colon.2).mp he)

lemma format_pyUpper_fixed {s : List Char}
    (h1 : ∀ c ∈ s, pyIsSpace c = false) (h2 : ∀ c ∈ s, c ≠ ':')
    (h3 : ∀ c, s.getLast? = some c → c ≠ '-') (hsl : '/' ∈ s) :
    format_symbol_for_ccxt (pyUpper s) = pyUpper s := by
  apply format_symbol_fixed
  · intro he
    rw [pyUpper, List.map_eq_nil] at he
    subst he
    exact absurd hsl (by simp)
  · exact noWs_pyUpper h1
  · exact noColon_pyUpper h2
  · intro c hc
    rw [pyUpper, getLast?_map] at hc
    obtain ⟨c'', hgl, rfl⟩ := Option.map_eq_some'.mp hc
    intro he
    exact h3 c'' hgl
      ((pyUpperChar_eq_nonletter not_letter_dash.1 not_letter_dash.2).mp he)
  · exact List.mem_map.mpr ⟨'/', hsl,
      pyUpperChar_fix_of_not_lower not_letter_slash.1⟩
  · exact pyUpper_eq_self_of_upFix (upFix_pyUpper s)

lemma formatQuoteAppend {b q : List Char}
    (hbws : ∀ c ∈ b, pyIsSpace c = false) (hbcol : ∀ c ∈ b, c ≠ ':')
    (hbup : ∀ c ∈ b, pyUpperChar c = c) (hq : q ∈ QUOTE_CURRENCIES) :
    format_symbol_for_ccxt (b ++ '/' :: q) = b ++ '/' :: q := by
  obtain ⟨hqne, hqup, hqws, hqcol, hqsl, hqlast⟩ := quote_facts q hq
  apply format_symbol_fixed
  · simp
  · intro c hc
    rcases List.mem_append.mp hc with hcb | hcq
    · exact hbws c hcb
    · rcases List.mem_cons.mp hcq with rfl | hcq'
      · decide
      · exact hqws c hcq'
  · intro c hc
    rcases List.mem_append.mp hc with hcb | hcq
    · exact hbcol c hcb
    · rcases List.mem_cons.mp hcq with rfl | hcq'
      · decide
      · exact hqcol c hcq'
  · intro c hc
    rw [List.getLast?_append] at hc
    have hqlast' : ('/' :: q).getLast? = q.getLast? := by
      cases q with
      | nil => exact absurd rfl hqne
      | cons a t =>
        rw [show ('/' :: a :: t) = ['/'] ++ (a :: t) from rfl, List.getLast?_append]
        cases hgl : (a :: t).getLast? with
        | none =>
          exact absurd hgl (by simp [List.getLast?_eq_getLast])
        | some z => simp
    rw [hqlast'] at hc
    cases hgl : q.getLast? with
    | none =>
      cases q with
      | nil => exact absurd rfl hqne
      | cons a t => exact absurd hgl (by simp [List.getLast?_eq_getLast])
    | some z =>
      rw [hgl] at hc
      have hz : z = c := by simpa using hc
      exact hz ▸ hqlast z hgl
  · simp
  · rw [pyUpper, List.map_append, List.map_cons]
    rw [show List.map pyUpperChar b = pyUpper b from rfl,
      pyUpper_eq_self_of_upFix hbup,
      pyUpperChar_fix_of_not_lower not_letter_slash.1,
      show List.map pyUpperChar q = pyUpper q from rfl,
      pyUpper_eq_self_of_upFix hqup]

/-- Claim C9 as stated is false (see the counterexample): stripping
trailing dashes can expose trailing whitespace that only the second
application removes, so `canonical` is not idempotent on arbitrary
strings.  Amended claim: all four literal examples hold, and
`canonical(canonical(x)) = canonical(x)` for every input containing no
whitespace character. -/
theorem claim9_canonicalization (x : List Char)
    (hws : ∀ c ∈ x, pyIsSpace c = false) :
    format_symbol_for_ccxt (format_symbol_for_ccxt x) = format_symbol_for_ccxt x ∧
    format_symbol_for_ccxt ("BTCUSDT".toList) = "BTC/USDT".toList ∧
    format_symbol_for_ccxt ("ETHUSDT:USDT".toList) = "ETH/USDT".toList ∧
    format_symbol_for_ccxt ("HFT-".toList) = "HFT/USDT".toList ∧
    format_symbol_for_ccxt ("FRAG".toList) = "FRAG/USDT".toList := by
  refine ⟨?_, by decide, by decide, by decide, by decide⟩
  by_cases hx : x = []
  · subst hx; rfl
  · have hfx : format_symbol_for_ccxt x =
        (if '/' ∈ rstripBy (fun c => c = '-') (pyStrip (x.takeWhile (fun c => c ≠ ':')))
         then pyUpper (rstripBy (fun c => c = '-') (pyStrip (x.takeWhile (fun c => c ≠ ':'))))
         else
           match pyFindQuote
               (pyUpper (rstripBy (fun c => c = '-')
                 (pyStrip (x.takeWhile (fun c => c ≠ ':'))))) QUOTE_CURRENCIES with
           | some (b, q) => b ++ '/' :: q
           | none =>
             if pyUpper (rstripBy (fun c => c = '-')
                 (pyStrip (x.takeWhile (fun c => c ≠ ':')))) ≠ [] then
               pyUpper (rstripBy (fun c => c = '-')
                 (pyStrip (x.takeWhile (fun c => c ≠ ':')))) ++ '/' :: "USDT".toList
             else []) := by
      simp only [format_symbol_for_ccxt]
      rw [if_neg hx]
    generalize hs : rstripBy (fun c => c = '-') (pyStrip (x.takeWhile (fun c => c ≠ ':'))) = s
      at hfx
    have hsws : ∀ c ∈ s, pyIsSpace c = false := by
      intro c hc
      exact hws c ((List.takeWhile_sublist _).subset
        (mem_of_mem_pyStrip (mem_of_mem_rstripBy (hs ▸ hc))))
    have hscol : ∀ c ∈ s, c ≠ ':' := by
      intro c hc
      exact of_decide_eq_true (mem_takeWhile_sat
        (mem_of_mem_pyStrip (mem_of_mem_rstripBy (hs ▸ hc))))
    have hslast : ∀ c, s.getLast? = some c → c ≠ '-' := by
      intro c hc
      exact of_decide_eq_false (rstripBy_no_trailing (hs ▸ hc))
    rw [hfx]
    by_cases hsl : '/' ∈ s
    · rw [if_pos hsl]
      exact format_pyUpper_fixed hsws hscol hslast hsl
    · rw [if_neg hsl]
      cases hfq : pyFindQuote (pyUpper s) QUOTE_CURRENCIES with
      | some bq =>
        obtain ⟨b, q⟩ := bq
        simp only [hfq]
        obtain ⟨hqmem, hb⟩ := pyFindQuote_some_inv hfq
        have hbsub : ∀ c ∈ b, c ∈ pyUpper s := by
          intro c hc
          rw [hb] at hc
          exact (List.take_sublist _ _).subset (mem_of_mem_rstripBy hc)
        exact formatQuoteAppend
          (fun c hc => noWs_pyUpper hsws c (hbsub c hc))
          (fun c hc => noColon_pyUpper hscol c (hbsub c hc))
          (fun c hc => upFix_pyUpper s c (hbsub c hc))
          hqmem
      | none =>
        simp only [hfq]
        by_cases hu : pyUpper s = []
        · rw [if_neg (not_not_intro hu)]
          rfl
        · rw [if_pos hu]
          exact formatQuoteAppend (noWs_pyUpper hsws) (noColon_pyUpper hscol)
            (upFix_pyUpper s) (by decide)

/-- Counterexample to claim C9 as stated: the input `"BTC/USDT -"`
canonicalizes to `"BTC/USDT "` (trailing space exposed by the dash
strip), which a second application further shortens to `"BTC/USDT"`. -/
theorem claim9_counterexample :
    format_symbol_for_ccxt (format_symbol_for_ccxt ("BTC/USDT -".toList)) ≠
      format_symbol_for_ccxt ("BTC/USDT -".toList) := by decide

theorem claim9_canonicalization_witness :
    format_symbol_for_ccxt (format_symbol_for_ccxt ("ETHUSDT:USDT".toList)) =
      format_symbol_for_ccxt ("ETHUSDT:USDT".toList) ∧
    format_symbol_for_ccxt ("BTCUSDT".toList) = "BTC/USDT".toList ∧
    format_symbol_for_ccxt ("ETHUSDT:USDT".toList) = "ETH/USDT".toList ∧
    format_symbol_for_ccxt ("HFT-".toList) = "HFT/USDT".toList ∧
    format_symbol_for_ccxt ("FRAG".toList) = "FRAG/USDT".toList :=
  claim9_canonicalization ("ETHUSDT:USDT".toList) (by decide)

end CopyTrader
